import Mathlib

/-!
Verification of the rustpkg package-source resolver (`librustpkg/package_source.rs`)
and the `concat!` expander (`libsyntax/ext/concat.rs`).

Paths are modelled as lists of path segments (old-Rust `Path::new` on a
slash-separated string, `components`, `pop`, `dir_path`, `join` become list
operations on segments).  Filesystem state, the version-control client, the
workcache and the compiler are external collaborators and are modelled as an
explicit environment of functions.  Trappable conditions are modelled in their
untrapped (default) behaviour, as `Except` errors.
-/

set_option autoImplicit false

/-- A filesystem path, as its list of segments. -/
abbrev FsPath := List String

/-- Render a segment list the way the source renders paths: segments joined
by a slash (`components.connect("/")`). -/
def joinSlash : FsPath → String
  | [] => ""
  | [x] => x
  | x :: xs => x ++ "/" ++ joinSlash xs

/-- `Path::dir_path()`: the path minus its last segment. -/
def dirPath (p : FsPath) : FsPath := p.dropLast

/-- Repeated `Path::pop()`: drop the last segment `n` times. -/
def popN : Nat → FsPath → FsPath
  | 0, p => p
  | n + 1, p => popN n p.dropLast

/-!
## PathDecomposer: `prefixes` / `Prefixes::next` (package_source.rs lines 73-99)

The iterator keeps the not-yet-moved `components` and the accumulated
`remaining` suffix; each `next` pops the last component, unshifts it onto the
front of `remaining`, and yields the pair — returning `None` as soon as at
most one component is left.  The fuel argument is the number of components,
which bounds the number of `next` calls; each call removes exactly one
component, so the initial length is always enough fuel.
-/

/-- One `Prefixes::next` step per fuel unit: if more than one component
remains, pop the last component onto the front of `remaining` and yield the
resulting `(prefix, suffix)` pair. -/
def prefixesAux : Nat → List String → List String → List (FsPath × FsPath)
  | 0, _, _ => []
  | fuel + 1, components, remaining =>
    if components.length ≤ 1 then []
    else
      let last := components.getLastD ""
      let components := components.dropLast
      let remaining := last :: remaining
      (components, remaining) :: prefixesAux fuel components remaining

/-- `prefixes(p)`: the full sequence of pairs yielded by the iterator started
on the components of `p` with an empty `remaining` list. -/
def prefixesList (p : FsPath) : List (FsPath × FsPath) :=
  prefixesAux p.length p []

theorem dropLast_take_eq_take {α : Type} (l : List α) {j : Nat}
    (h : j ≤ l.length - 1) : l.dropLast.take j = l.take j := by
  rw [List.dropLast_eq_take, List.take_take, Nat.min_eq_left h]

theorem drop_dropLast_append {α : Type} (l : List α) (d : α) {j : Nat}
    (hl : l ≠ []) (h : j ≤ l.length - 1) :
    l.dropLast.drop j ++ [l.getLastD d] = l.drop j := by
  have h' : j ≤ l.dropLast.length := by
    rw [List.length_dropLast]; exact h
  conv_rhs => rw [← List.dropLast_append_getLast hl]
  rw [List.drop_append_of_le_length h', List.getLastD_eq_getLast?,
      List.getLast?_eq_getLast _ hl]
  rfl

theorem drop_length_sub_one {α : Type} (l : List α) (d : α) (hl : l ≠ []) :
    l.drop (l.length - 1) = [l.getLastD d] := by
  have := drop_dropLast_append l d hl (j := l.length - 1) (Nat.le_refl _)
  rw [← this, List.drop_eq_nil_of_le (by simp [List.length_dropLast]),
      List.nil_append]

/-- Closed form of the iterator: starting with `n = components.length` enough
fuel, the `i`-th yielded pair is the first `n-1-i` components paired with the
rest (followed by whatever suffix had accumulated already). -/
theorem prefixesAux_eq (fuel : Nat) :
    ∀ (comps rem : List String), comps.length ≤ fuel →
    prefixesAux fuel comps rem =
      (List.range (comps.length - 1)).map
        (fun i => (comps.take (comps.length - 1 - i),
                   comps.drop (comps.length - 1 - i) ++ rem)) := by
  induction fuel with
  | zero =>
    intro comps rem h
    have : comps = [] := List.eq_nil_of_length_eq_zero (Nat.le_zero.mp h)
    subst this
    simp [prefixesAux]
  | succ n ih =>
    intro comps rem h
    by_cases hlen : comps.length ≤ 1
    · have : comps.length - 1 = 0 := by omega
      simp [prefixesAux, hlen, this]
    · have hne : comps ≠ [] := by
        intro hc
        subst hc
        simp at hlen
    -- unfold one iterator step
      rw [prefixesAux]
      simp only [if_neg hlen]
      have hdrop : comps.dropLast.length = comps.length - 1 := by
        simp [List.length_dropLast]
      have hrec := ih comps.dropLast (comps.getLastD "" :: rem)
        (by omega)
      rw [hrec]
      -- identify the head and reshape the tail
      have hL : comps.length - 1 = (comps.length - 2) + 1 := by omega
      rw [hdrop, hL, List.range_succ_eq_map, List.map_cons, List.map_map]
      congr 1
      · -- head pair: (dropLast, last :: rem)
        rw [← hL, Nat.sub_zero, ← List.dropLast_eq_take,
            drop_length_sub_one comps "" hne]
        rfl
      · -- tail: shift indices by one
        apply List.map_congr_left
        intro i hi
        rw [List.mem_range] at hi
        have e1 : comps.length - 2 + 1 - 1 - i = comps.length - 2 - i := by
          omega
        have e2 : comps.length - 2 + 1 - i.succ = comps.length - 2 - i := by
          omega
        simp only [Function.comp, e1, e2, Prod.mk.injEq]
        have hji : comps.length - 2 - i ≤ comps.length - 1 := by omega
        refine ⟨dropLast_take_eq_take comps hji, ?_⟩
        rw [List.append_cons, drop_dropLast_append comps "" hne hji]

/-- Closed form of `prefixesList`. -/
theorem prefixesList_eq (p : FsPath) :
    prefixesList p =
      (List.range (p.length - 1)).map
        (fun i => (p.take (p.length - 1 - i), p.drop (p.length - 1 - i))) := by
  rw [prefixesList, prefixesAux_eq p.length p [] (Nat.le_refl _)]
  simp

theorem prefixesList_length (p : FsPath) :
    (prefixesList p).length = p.length - 1 := by
  simp [prefixesList_eq]

/-- Every yielded pair splits the original path: the prefix is a nonempty
strict initial run of segments and the suffix the matching nonempty tail. -/
theorem mem_prefixesList {p : FsPath} {pre suf : FsPath}
    (h : (pre, suf) ∈ prefixesList p) :
    pre ++ suf = p ∧ pre ≠ [] ∧ suf ≠ [] ∧ pre.length < p.length := by
  rw [prefixesList_eq] at h
  rcases List.mem_map.mp h with ⟨i, hi, hpair⟩
  rw [List.mem_range] at hi
  obtain ⟨hpre, hsuf⟩ := Prod.mk.injEq .. ▸ hpair
  have hlen : p.length - 1 - i ≥ 1 := by omega
  have hlt : p.length - 1 - i < p.length := by omega
  subst hpre hsuf
  refine ⟨List.take_append_drop _ _, ?_, ?_, ?_⟩
  · intro hc
    have := congrArg List.length hc
    simp only [List.length_take, List.length_nil] at this
    omega
  · intro hc
    have := congrArg List.length hc
    simp only [List.length_drop, List.length_nil] at this
    omega
  · rw [List.length_take]
    omega

theorem joinSlash_cons (w : String) {u : List String} (hu : u ≠ []) :
    joinSlash (w :: u) = w ++ "/" ++ joinSlash u := by
  cases u with
  | nil => exact absurd rfl hu
  | cons v vs => rfl

theorem joinSlash_append {a b : FsPath} (ha : a ≠ []) (hb : b ≠ []) :
    joinSlash (a ++ b) = joinSlash a ++ "/" ++ joinSlash b := by
  induction a with
  | nil => exact absurd rfl ha
  | cons x xs ih =>
    cases xs with
    | nil =>
      rw [List.singleton_append, joinSlash_cons x hb]
      rfl
    | cons z zs =>
      rw [List.cons_append, joinSlash_cons x (by simp),
          joinSlash_cons x (u := z :: zs) (by simp), ih (by simp),
          String.append_assoc, String.append_assoc, String.append_assoc,
          String.append_assoc, ← String.append_assoc x]

/-!
## Data model (package_source.rs lines 32-71, and external collaborators)

`CrateId` (`syntax::crateid`), `Crate` (`crate.rs`), the path helpers of
`path_util.rs` and the collaborators (`source_control`, `workcache`,
`compile_crate`, the filesystem) are not part of the analyzed source files;
they are modelled from the spec where their behaviour matters and kept
abstract (an `Env` of functions) where it does not.
-/

/-- Modelled from the spec: a `PackageIdentifier` (`syntax::crateid::CrateId`,
not under src/) is a hierarchical path plus an optional version; equality is
structural. -/
structure CrateId where
  path : FsPath
  version : Option String
deriving DecidableEq

/-- Modelled from the spec: the short name of an identifier is its last path
segment. -/
def CrateId.name (id : CrateId) : String := id.path.getLastD ""

/-- Modelled from the spec: the version, defaulting to "0.0" when unpinned. -/
def CrateId.versionOrDefault (id : CrateId) : String := id.version.getD "0.0"

/-- Modelled from the spec: `short_name_with_version` renders
`<short-name>-<version>`. -/
def CrateId.shortNameWithVersion (id : CrateId) : String :=
  id.name ++ "-" ++ id.versionOrDefault

/-- Modelled from the spec: `from_str` on a prefix path yields the identifier
whose path is that prefix, with no version pin. -/
def mkPrefixId (pre : FsPath) : CrateId := { path := pre, version := none }

/-- Modelled from the spec: `path_util::versionize` appends `-<version>` to
the identifier path (that is, to its last segment). -/
def versionize (p : FsPath) (v : Option String) : FsPath :=
  dirPath p ++ [p.getLastD "" ++ "-" ++ v.getD "0.0"]

/-- Modelled from the spec: the ancestor test used on the adopted fetch
directory.  Per the spec the workspace-root recomputation fires when the
adopted directory is `.../build/<target>/src/<identifier-path>`, i.e. when
the identifier path (or its versioned form) is the tail of the adopted
directory's segments. -/
def isAncestorOf (d p : FsPath) : Bool := p.isSuffixOf d

/-- Modelled from the spec: `path_util::target_build_dir` is the
`<root>/build/<target>` staging layer. -/
def targetBuildDir (target : String) (ws : FsPath) : FsPath :=
  ws ++ ["build", target]

/-- Modelled from the spec: a build unit (`crate.rs`, not under src/) is a
relative file path plus per-unit extra flags and configuration tags,
both empty at discovery time. -/
structure Crate where
  file : FsPath
  flags : List String
  cfgs : List String
deriving DecidableEq

/-- `Crate::new`: a unit with empty extra flags and tags. -/
def Crate.new (p : FsPath) : Crate := { file := p, flags := [], cfgs := [] }

/-- `util::DepMap`: ordered map from crate name to discovered
`(kind, name)` pairs, as an association list. -/
abbrev DepMap := List (String × List (String × String))

/-- `target::OutputType`: the four build-output kinds. -/
inductive OutputType where
  | Lib : OutputType
  | Main : OutputType
  | Test : OutputType
  | Bench : OutputType
deriving DecidableEq

/-- `source_control::safe_git_clone` outcome: either a valid checkout already
exists at the target, or the caller is told which staging directory to clone
into. -/
inductive CloneResult where
  | CheckedOutSources : CloneResult
  | DirToUse : FsPath → CloneResult
deriving DecidableEq

/-- The external world `package_source.rs` calls into: filesystem queries,
process state, the version-control client and the single-unit compiler.
All are collaborators outside the analyzed source and are kept abstract. -/
structure Env where
  isDir : FsPath → Bool
  hasCrateFile : FsPath → Bool
  cwd : FsPath
  defaultWorkspace : FsPath
  target : String
  safeGitClone : FsPath → Option String → FsPath → CloneResult
  gitCloneOk : String → FsPath → Option String → Bool
  mkdirOk : FsPath → Bool
  renameOk : FsPath → FsPath → Bool
  rustPathHackDir : CrateId → Option FsPath
  walkDir : FsPath → List FsPath
  compileCrate : CrateId → FsPath → FsPath → DepMap → List String →
    List String → OutputType → Option FsPath × DepMap

/-- The resolved state of one package (struct `PkgSrc`). -/
structure PkgSrc where
  source_workspace : FsPath
  build_in_destination : Bool
  destination_workspace : FsPath
  start_dir : FsPath
  id : CrateId
  libs : List Crate
  mains : List Crate
  tests : List Crate
  benchs : List Crate
deriving DecidableEq

/-- The `nonexistent_package` condition (both raise sites of `PkgSrc::new`),
in its untrapped behaviour: the resolution fails with the identifier and the
diagnostic string. -/
inductive PkgErr where
  | nonexistentPackage : CrateId → String → PkgErr
deriving DecidableEq

/-- Raise site at lines 271-274: the resolved directory is not a directory.
(The source contraction in "couldn't" is spelled out.) -/
def nonDirMsg : String := "supplied path for package dir is a non-directory"

/-- Raise sites at lines 252-260: no candidate worked. -/
def notFoundMsg : String :=
  "supplied path for package dir does not exist, and could not interpret it as a URL fragment"

/-!
## RemoteFetcher: `PkgSrc::fetch_git` (lines 294-338)
-/

/-- Result of a fetch, together with whether a network clone was attempted
(`git_clone_url` invoked), which the source's control flow determines. -/
structure FetchOut where
  result : Option FsPath
  cloneAttempted : Bool
deriving DecidableEq

/-- `PkgSrc::fetch_git`: if a valid checkout already exists, mark it
read-only (an elided filesystem effect) and return it without cloning;
otherwise refuse identifier paths of fewer than two segments, then clone
`https://<identifier-path>` into the staging directory and atomically adopt
it (create ancestors, then rename); a failed clone or failed move yields
nothing. -/
def PkgSrc.fetchGit (env : Env) (loc : FsPath) (crateid : CrateId) : FetchOut :=
  match env.safeGitClone crateid.path crateid.version loc with
  | .CheckedOutSources =>
    { result := some loc, cloneAttempted := false }
  | .DirToUse cloneTarget =>
    if crateid.path.length < 2 then
      { result := none, cloneAttempted := false }
    else
      let url := "https://" ++ joinSlash crateid.path
      if env.gitCloneOk url cloneTarget crateid.version then
        let moved := env.mkdirOk (dirPath loc) && env.renameOk cloneTarget loc
        { result := if moved then some loc else none, cloneAttempted := true }
      else
        { result := none, cloneAttempted := true }

/-!
## WorkspaceLocator: `PkgSrc::new` (lines 102-287)

The candidate list `to_try`, the staging candidates `output_names`, the
first-existing-candidate search, the nested-prefix search and the
first-successful-fetch search are each named definitions so that the
theorems can speak about which branch resolution takes.  The recursion of
`PkgSrc::new` (the nested-prefix branch resolves a strictly shorter
identifier path) is bounded by a fuel argument; `PkgSrc.new` passes fuel
`id.path.length + 1`, which `PkgSrc.newAux_fuel` shows is always enough.
-/

/-- The two fetch-staging candidates (`output_names`, pushed at lines
135-143): `build/<target>/src/<group>/<name-version>` and
`build/<target>/src/<identifier-path>`. -/
def stagingCandidates (env : Env) (source : FsPath) (id : CrateId) : List FsPath :=
  let bd := targetBuildDir env.target source
  [bd ++ ["src"] ++ dirPath id.path ++ [id.shortNameWithVersion],
   bd ++ ["src"] ++ id.path]

/-- The ordered candidate directory list `to_try` (lines 121-145): the
source workspace itself under the rust-path hack, otherwise the two `src/`
layouts followed by the two staging layouts. -/
def toTry (env : Env) (source : FsPath) (hack : Bool) (id : CrateId) : List FsPath :=
  if hack then [source]
  else
    [source ++ ["src"] ++ dirPath id.path ++ [id.shortNameWithVersion],
     source ++ ["src"] ++ id.path] ++ stagingCandidates env source id

/-- `output_names` (lines 135-143): populated only in the non-hack layout. -/
def outputNames (env : Env) (source : FsPath) (hack : Bool) (id : CrateId) : List FsPath :=
  if hack then [] else stagingCandidates env source id

/-- Line 149: the first candidate that is an existing directory containing a
crate file. -/
def candidateHit (env : Env) (source : FsPath) (hack : Bool) (id : CrateId) : Option FsPath :=
  (toTry env source hack id).find? (fun d => env.isDir d && env.hasCrateFile d)

/-- Lines 161-166: the first `(prefix, suffix)` decomposition of the
identifier path whose prefix names a directory under the build-staging
root. -/
def prefixHit (env : Env) (source : FsPath) (id : CrateId) : Option (FsPath × FsPath) :=
  (prefixesList id.path).find?
    (fun pr => env.isDir (targetBuildDir env.target source ++ pr.1))

/-- Lines 197-228 (loop skeleton): the first staging candidate for which
`fetch_git` succeeds, and the directory it returns. -/
def fetchFirst (env : Env) (ws : List FsPath) (id : CrateId) : Option FsPath :=
  ws.findSome? (fun w => (PkgSrc.fetchGit env w id).result)

/-- Lines 271-286: the final directory check shared by the candidate-hit,
fetch and rust-path-hack return paths — fail with the non-directory
condition unless the resolved dir is a directory, then build the value. -/
def finishPkg (env : Env) (sw : FsPath) (bid : Bool) (dw : FsPath)
    (id : CrateId) (dir : FsPath) : Except PkgErr PkgSrc :=
  if env.isDir dir then
    .ok { source_workspace := sw, build_in_destination := bid,
          destination_workspace := dw, start_dir := dir, id := id,
          libs := [], mains := [], tests := [], benchs := [] }
  else
    .error (.nonexistentPackage id nonDirMsg)

/-- One fuel-bounded layer of `PkgSrc::new`.  The fuel case 0 is
unreachable from `PkgSrc.new` (see `PkgSrc.newAux_fuel`): every recursive
call resolves a strictly shorter identifier path. -/
def PkgSrc.newAux : Nat → Env → FsPath → FsPath → Bool → CrateId →
    Except PkgErr PkgSrc
  | 0, _, _, _, _, id => .error (.nonexistentPackage id "recursion fuel exhausted")
  | fuel + 1, env, source, dest, hack, id =>
    match candidateHit env source hack id with
    | some d =>
      -- a candidate directory exists: build_in_destination is the
      -- use_rust_path_hack flag (line 153)
      finishPkg env source hack dest id d
    | none =>
      match prefixHit env source id with
      | some (pre, suf) =>
        -- nested-prefix branch (lines 161-194): recursively resolve the
        -- prefix identifier and append the suffix to its start_dir; returns
        -- early, with the local build_in_destination flag
        match PkgSrc.newAux fuel env source dest hack (mkPrefixId pre) with
        | .error e => .error e
        | .ok ps =>
          .ok { source_workspace := ps.source_workspace,
                build_in_destination := hack,
                destination_workspace := ps.destination_workspace,
                start_dir := ps.start_dir ++ suf,
                id := ps.id,
                libs := [], mains := [], tests := [], benchs := [] }
      | none =>
        match fetchFirst env (outputNames env source hack id) id with
        | some d =>
          -- fetch succeeded (lines 200-228): build_in_destination := true;
          -- recompute the workspaces when the adopted directory carries the
          -- identifier path (or its versioned form) as its tail
          if isAncestorOf d id.path || isAncestorOf d (versionize id.path id.version) then
            let sw := popN (id.path.length + 1) d
            finishPkg env sw true (popN 2 sw) id d
          else
            finishPkg env source true dest id d
        | none =>
          if env.hasCrateFile env.cwd then
            -- sources in $CWD (lines 233-247): early return, no directory
            -- check
            .ok { source_workspace := env.cwd, build_in_destination := true,
                  destination_workspace := env.defaultWorkspace,
                  start_dir := env.cwd, id := id,
                  libs := [], mains := [], tests := [], benchs := [] }
          else if hack then
            match env.rustPathHackDir id with
            | some d => finishPkg env source hack dest id d
            | none => .error (.nonexistentPackage id notFoundMsg)
          else
            .error (.nonexistentPackage id notFoundMsg)

/-- `PkgSrc::new`: resolution with always-sufficient fuel. -/
def PkgSrc.new (env : Env) (source dest : FsPath) (hack : Bool)
    (id : CrateId) : Except PkgErr PkgSrc :=
  PkgSrc.newAux (id.path.length + 1) env source dest hack id

deriving instance DecidableEq for Except

/-!
## UnitDiscovery: `PkgSrc::find_crates_with_filter` (lines 352-410)
-/

/-- `PkgSrc::push_crate`: the unit's path relative to `start_dir`, dropping
exactly `pfx` leading components.  The source asserts that at least one
component remains, which holds for `walk_dir` outputs (they lie strictly
below `start_dir`). -/
def PkgSrc.pushCrate (pfx : Nat) (p : FsPath) : Crate := Crate.new (p.drop pfx)

/-- One walked file (lines 377-392): take the filename, apply the caller's
filter, then classify by exact filename into the matching unit list; any
other filename touches nothing. -/
def classifyStep (filter : String → Bool) (pfx : Nat) (ps : PkgSrc)
    (pth : FsPath) : PkgSrc :=
  match pth.getLast? with
  | some filename =>
    if filter filename then
      if filename = "lib.rs" then
        { ps with libs := ps.libs ++ [PkgSrc.pushCrate pfx pth] }
      else if filename = "main.rs" then
        { ps with mains := ps.mains ++ [PkgSrc.pushCrate pfx pth] }
      else if filename = "test.rs" then
        { ps with tests := ps.tests ++ [PkgSrc.pushCrate pfx pth] }
      else if filename = "bench.rs" then
        { ps with benchs := ps.benchs ++ [PkgSrc.pushCrate pfx pth] }
      else ps
    else ps
  | none => ps

/-- The full walk of `start_dir` (lines 375-393). -/
def discoverCrates (env : Env) (ps : PkgSrc) (filter : String → Bool) : PkgSrc :=
  (env.walkDir ps.start_dir).foldl (classifyStep filter ps.start_dir.length) ps

/-- `PkgSrc::find_crates_with_filter`: walk and classify, then — if all four
unit lists are empty — report the naming-convention hint (an elided logging
effect) and raise the `missing_pkg_files` condition carrying the package
identifier (untrapped: the error value). -/
def PkgSrc.findCratesWithFilter (env : Env) (ps : PkgSrc)
    (filter : String → Bool) : Except CrateId PkgSrc :=
  let ps := discoverCrates env ps filter
  if ps.libs.isEmpty && ps.mains.isEmpty && ps.tests.isEmpty && ps.benchs.isEmpty then
    .error ps.id
  else
    .ok ps

/-!
## BuildOrchestrator: `PkgSrc::build_crates` / `PkgSrc::build`
(lines 412-533)

The workcache scope bookkeeping (`with_prep`, `declare_input`, `exec`,
`discover_input` digests) is external; what the source itself decides is:
the per-crate compile call receives `sub_deps.clone()` — a clone of a clone
of `deps` — so `deps` is never written; and a discoverable-input kind other
than "file"/"binary" is a fatal `fail!` (modelled as `none`).
-/

/-- Lines 441-447: some discoverable input has a kind outside
file/binary, which is `fail!("Bad kind in build_crates")`. -/
def badKind (inputs : List (String × FsPath)) : Bool :=
  inputs.any (fun kp => !(kp.1 == "file" || kp.1 == "binary"))

/-- `PkgSrc::build_workspace`: destination workspace iff
`build_in_destination`. -/
def PkgSrc.buildWorkspace (ps : PkgSrc) : FsPath :=
  if ps.build_in_destination then ps.destination_workspace
  else ps.source_workspace

/-- The per-crate body of `PkgSrc::build_crates` (lines 419-471): open the
cache scope, register the discoverable inputs (failing fatally — `none` —
on a bad kind), and invoke the external compiler on a clone
(`sub_deps.clone()`) of a clone (`deps.clone()`) of the dependency map; its
result becomes the recorded cache output and its map mutations are
discarded.  A `none` accumulator propagates an earlier fatal failure. -/
def buildCrateStep (env : Env) (ps : PkgSrc) (cfgs : List String)
    (what : OutputType) (inputs : List (String × FsPath))
    (acc : Option DepMap) (crate : Crate) : Option DepMap :=
  match acc with
  | none => none
  | some deps =>
    if badKind inputs then none
    else
      let path := ps.start_dir ++ crate.file
      let subDeps := deps
      let _ := env.compileCrate ps.id path ps.buildWorkspace subDeps
        crate.flags (crate.cfgs ++ cfgs) what
      some deps

/-- `PkgSrc::build_crates`: the per-crate body over the unit list. -/
def PkgSrc.buildCrates (env : Env) (ps : PkgSrc) (deps : DepMap)
    (crates : List Crate) (cfgs : List String) (what : OutputType)
    (inputs : List (String × FsPath)) : Option DepMap :=
  crates.foldl (buildCrateStep env ps cfgs what inputs) (some deps)

/-- `PkgSrc::build`: a fresh map, the four unit categories in order, the
(unchanged) map returned. -/
def PkgSrc.build (env : Env) (ps : PkgSrc) (cfgs : List String)
    (inputs : List (String × FsPath)) : Option DepMap :=
  let deps : DepMap := []
  match PkgSrc.buildCrates env ps deps ps.libs cfgs .Lib inputs with
  | none => none
  | some deps =>
    match PkgSrc.buildCrates env ps deps ps.mains cfgs .Main inputs with
    | none => none
    | some deps =>
      match PkgSrc.buildCrates env ps deps ps.tests cfgs .Test inputs with
      | none => none
      | some deps =>
        PkgSrc.buildCrates env ps deps ps.benchs cfgs .Bench inputs

/-!
## The `concat!` expander: `expand_syntax_ext` (libsyntax/ext/concat.rs)

Argument extraction (`get_exprs_from_tts`) and per-argument macro expansion
(`cx.expand_expr`) are external collaborators; the token-tree type is kept
abstract.  Error reporting (`span_err`) is modelled as an accumulated list
of messages.
-/

/-- The literal kinds of `ast::Lit_` matched by the expander. -/
inductive Lit where
  | LitStr : String → Lit
  | LitFloat : String → Lit
  | LitFloatUnsuffixed : String → Lit
  | LitChar : Char → Lit
  | LitInt : Int → Lit
  | LitIntUnsuffixed : Int → Lit
  | LitUint : Nat → Lit
  | LitNil : Lit
  | LitBool : Bool → Lit
  | LitBinary : Lit
deriving DecidableEq

/-- An expression as the expander sees it: a literal node, or anything
else. -/
inductive MExpr where
  | ExprLit : Lit → MExpr
  | ExprOther : MExpr
deriving DecidableEq

/-- `base::MacResult`, restricted to what the expander produces: an
expression, or the dummy result when extraction fails. -/
inductive MacResult where
  | MRExpr : MExpr → MacResult
  | MRDummy : MacResult
deriving DecidableEq

/-- The expander's collaborators over an abstract token type. -/
structure ConcatEnv (τ : Type) where
  getExprsFromTts : List τ → Option (List MExpr)
  expandExpr : MExpr → MExpr

/-- The loop body of `expand_syntax_ext` (lines 26-57): expand the argument,
then append its contribution to the accumulator — string/float literals
their source text, a char its character, int/uint literals their decimal
rendering, `()` nothing, bools "true"/"false" — while a binary literal or a
non-literal argument reports an error (`span_err`) and contributes
nothing. -/
def concatStep {τ : Type} (env : ConcatEnv τ) (st : String × List String)
    (e : MExpr) : String × List String :=
  let acc := st.1
  let errs := st.2
  match env.expandExpr e with
  | .ExprLit l =>
    match l with
    | .LitStr s | .LitFloat s | .LitFloatUnsuffixed s => (acc ++ s, errs)
    | .LitChar c => (acc.push c, errs)
    | .LitInt i | .LitIntUnsuffixed i => (acc ++ toString i, errs)
    | .LitUint u => (acc ++ toString u, errs)
    | .LitNil => (acc, errs)
    | .LitBool b => (acc ++ (if b then "true" else "false"), errs)
    | .LitBinary => (acc, errs ++ ["cannot concatenate a binary literal"])
  | .ExprOther => (acc, errs ++ ["expected a literal"])

/-- `expand_syntax_ext`: extract the argument expressions (dummy result if
that fails), fold the loop body over them left to right starting from the
empty accumulator, and wrap the accumulator as a string-literal
expression. -/
def expandSyntaxExt {τ : Type} (env : ConcatEnv τ) (tts : List τ) :
    MacResult × List String :=
  match env.getExprsFromTts tts with
  | none => (.MRDummy, [])
  | some es =>
    let st := es.foldl (concatStep env) ("", [])
    (.MRExpr (.ExprLit (.LitStr st.1)), st.2)

theorem prefixHit_length {env : Env} {source : FsPath} {id : CrateId}
    {pre suf : FsPath} (h : prefixHit env source id = some (pre, suf)) :
    pre.length < id.path.length :=
  (mem_prefixesList (List.mem_of_find?_eq_some h)).2.2.2

/-- Fuel irrelevance: any fuel exceeding the identifier path length yields
the same resolution, because each nested-prefix recursion strictly shortens
the path. -/
theorem PkgSrc.newAux_fuel (f₁ f₂ : Nat) (env : Env) (source dest : FsPath)
    (hack : Bool) (id : CrateId)
    (h₁ : id.path.length < f₁) (h₂ : id.path.length < f₂) :
    PkgSrc.newAux f₁ env source dest hack id =
      PkgSrc.newAux f₂ env source dest hack id := by
  induction f₁ using Nat.strong_induction_on generalizing f₂ env source dest hack id with
  | _ f₁ ih =>
  cases f₁ with
  | zero => omega
  | succ a =>
    cases f₂ with
    | zero => omega
    | succ b =>
      simp only [PkgSrc.newAux]
      cases hc : candidateHit env source hack id with
      | some d => simp [hc]
      | none =>
        simp only [hc]
        cases hp : prefixHit env source id with
        | some pr =>
          obtain ⟨pre, suf⟩ := pr
          have hlt := prefixHit_length hp
          simp only [hp]
          rw [ih a (by omega) b env source dest hack (mkPrefixId pre)
            (by simpa [mkPrefixId] using (by omega : pre.length < a))
            (by simpa [mkPrefixId] using (by omega : pre.length < b))]
        | none => simp [hp]

/-!
## Claims C1, C2, C3: the resolver's return paths
-/

theorem finishPkg_ok {env : Env} {sw dw dir : FsPath} {bid : Bool}
    {id : CrateId} {ps : PkgSrc}
    (h : finishPkg env sw bid dw id dir = .ok ps) :
    env.isDir dir = true ∧
      ps = { source_workspace := sw, build_in_destination := bid,
             destination_workspace := dw, start_dir := dir, id := id,
             libs := [], mains := [], tests := [], benchs := [] } := by
  unfold finishPkg at h
  split at h
  · cases h
    exact ⟨by assumption, rfl⟩
  · exact Except.noConfusion h

/-- Environment of the C1 counterexample: under `ws` no candidate directory
holds a crate file, the staging root contains a directory `a` (so the
nested-prefix branch fires for the identifier path `a/b`), the prefix
identifier `a` resolves through its first candidate `ws/src/a-0.0`, and
`ws/src/a-0.0/b` is not a directory. -/
def envC1 : Env :=
  { isDir := fun p => p == ["ws", "build", "t", "a"] || p == ["ws", "src", "a-0.0"]
    hasCrateFile := fun p => p == ["ws", "src", "a-0.0"]
    cwd := ["cwdx"]
    defaultWorkspace := ["dws"]
    target := "t"
    safeGitClone := fun _ _ _ => .DirToUse ["ct"]
    gitCloneOk := fun _ _ _ => false
    mkdirOk := fun _ => false
    renameOk := fun _ _ => false
    rustPathHackDir := fun _ => none
    walkDir := fun _ => []
    compileCrate := fun _ _ _ dm _ _ _ => (none, dm) }

/-- The value `PkgSrc::new` returns in the C1 counterexample. -/
def pkgC1 : PkgSrc :=
  { source_workspace := ["ws"], build_in_destination := false,
    destination_workspace := ["ws"], start_dir := ["ws", "src", "a-0.0", "b"],
    id := { path := ["a"], version := none },
    libs := [], mains := [], tests := [], benchs := [] }

/-- C1 counterexample: the resolution of `a/b` in `envC1` succeeds through
the nested-prefix branch, yet its `start_dir` is not a directory — the
branch returns early and bypasses the non-directory check, so the claimed
invariant fails on this return path. -/
theorem c1_counterexample :
    PkgSrc.new envC1 ["ws"] ["ws"] false { path := ["a", "b"], version := none } =
      .ok pkgC1 ∧
    envC1.isDir pkgC1.start_dir = false := by
  decide

/-- C1 (amended): `start_dir.is_dir()` holds for every `PackageSource`
successfully returned through the first-candidate hit, the fetch fallback,
the current-working-directory fallback (granting that the OS working
directory is a directory) and the rust-path-hack fallback — on those paths a
non-directory resolved dir fails with the "package directory is not a
directory" condition; the nested-prefix return path, however, performs no
directory check and can return a non-directory `start_dir`
(`c1_counterexample`). -/
theorem c1_amended (env : Env) (source dest : FsPath) (hack : Bool)
    (id : CrateId)
    (hcwd : env.isDir env.cwd = true)
    (hnp : candidateHit env source hack id = none →
      prefixHit env source id = none)
    (ps : PkgSrc)
    (hok : PkgSrc.new env source dest hack id = .ok ps) :
    env.isDir ps.start_dir = true := by
  simp only [PkgSrc.new, PkgSrc.newAux] at hok
  cases hc : candidateHit env source hack id with
  | some d =>
    simp only [hc] at hok
    obtain ⟨hd, hps⟩ := finishPkg_ok hok
    rw [hps]
    exact hd
  | none =>
    have hp := hnp hc
    simp only [hc, hp] at hok
    cases hf : fetchFirst env (outputNames env source hack id) id with
    | some d =>
      simp only [hf] at hok
      split at hok
      all_goals
        obtain ⟨hd, hps⟩ := finishPkg_ok hok
        rw [hps]
        exact hd
    | none =>
      simp only [hf] at hok
      split at hok
      · cases hok
        exact hcwd
      · split at hok
        · cases hr : env.rustPathHackDir id with
          | some d =>
            rw [hr] at hok
            obtain ⟨hd, hps⟩ := finishPkg_ok hok
            rw [hps]
            exact hd
          | none =>
            rw [hr] at hok
            exact Except.noConfusion hok
        · exact Except.noConfusion hok

/-- Environment of the C1 amended witness: the first candidate
`ws/src/a-0.0` is a directory with a crate file, and the working directory
is a directory. -/
def envC1w : Env :=
  { envC1 with
    isDir := fun p => p == ["ws", "src", "a-0.0"] || p == ["cw"]
    hasCrateFile := fun p => p == ["ws", "src", "a-0.0"]
    cwd := ["cw"] }

/-- The value resolved in the C1 amended witness. -/
def pkgC1w : PkgSrc :=
  { source_workspace := ["ws"], build_in_destination := false,
    destination_workspace := ["ws"], start_dir := ["ws", "src", "a-0.0"],
    id := { path := ["a"], version := none },
    libs := [], mains := [], tests := [], benchs := [] }

theorem c1_amended_witness : envC1w.isDir pkgC1w.start_dir = true :=
  c1_amended envC1w ["ws"] ["ws"] false { path := ["a"], version := none }
    (by decide) (by decide) pkgC1w (by decide)

/-- Environment of the C2 counterexample: nothing under `ws` carries a crate
file, the staging root contains a directory `a` (so resolving `a/b` takes
the nested-prefix branch), and the prefix identifier `a` resolves through a
successful fetch (an already-checked-out staging candidate), which sets its
`build_in_destination` to true. -/
def envC2 : Env :=
  { envC1 with
    isDir := fun p =>
      p == ["ws", "build", "t", "a"] || p == ["ws", "build", "t", "src", "a-0.0"]
    hasCrateFile := fun _ => false
    safeGitClone := fun path _ _ =>
      if path == ["a"] then .CheckedOutSources else .DirToUse ["ct"] }

/-- Outer resolution of `a/b` in `envC2`. -/
def pkgC2outer : PkgSrc :=
  { source_workspace := ["ws", "build", "t"], build_in_destination := false,
    destination_workspace := ["ws"],
    start_dir := ["ws", "build", "t", "src", "a-0.0", "b"],
    id := { path := ["a"], version := none },
    libs := [], mains := [], tests := [], benchs := [] }

/-- Recursive (prefix) resolution of `a` in `envC2`. -/
def pkgC2inner : PkgSrc :=
  { source_workspace := ["ws", "build", "t"], build_in_destination := true,
    destination_workspace := ["ws"],
    start_dir := ["ws", "build", "t", "src", "a-0.0"],
    id := { path := ["a"], version := none },
    libs := [], mains := [], tests := [], benchs := [] }

/-- C2 counterexample: resolving `a/b` takes the nested-prefix branch and
recursively resolves `a`, whose `build_in_destination` is true (it fetched),
yet the returned value's flag is false — the flag is the outer call's local
`use_rust_path_hack` value, not the prefix resolution's flag, so it is not
"inherited unchanged". -/
theorem c2_counterexample :
    PkgSrc.new envC2 ["ws"] ["ws"] false { path := ["a", "b"], version := none } =
      .ok pkgC2outer ∧
    PkgSrc.new envC2 ["ws"] ["ws"] false { path := ["a"], version := none } =
      .ok pkgC2inner ∧
    pkgC2inner.build_in_destination = true ∧
    pkgC2outer.build_in_destination = false := by
  decide

/-- C2 (amended): when resolution succeeds through the nested-prefix branch,
the returned value's `source_workspace` and `destination_workspace` are
exactly those of the recursive prefix resolution, and its `start_dir` is the
prefix resolution's `start_dir` with the suffix appended; its
`build_in_destination` flag, however, is not inherited: it is the outer
call's `use_rust_path_hack` value (the local flag, unchanged at this point),
which can differ from the prefix resolution's flag
(`c2_counterexample`). -/
theorem c2_amended (env : Env) (source dest : FsPath) (hack : Bool)
    (id : CrateId) (pre suf : FsPath) (ps' ps : PkgSrc)
    (hc : candidateHit env source hack id = none)
    (hp : prefixHit env source id = some (pre, suf))
    (hin : PkgSrc.new env source dest hack (mkPrefixId pre) = .ok ps')
    (hout : PkgSrc.new env source dest hack id = .ok ps) :
    ps.source_workspace = ps'.source_workspace ∧
    ps.destination_workspace = ps'.destination_workspace ∧
    ps.start_dir = ps'.start_dir ++ suf ∧
    ps.build_in_destination = hack := by
  have hlt := prefixHit_length hp
  simp only [PkgSrc.new] at hout hin
  simp only [PkgSrc.newAux, hc, hp] at hout
  rw [PkgSrc.newAux_fuel id.path.length ((mkPrefixId pre).path.length + 1)
    env source dest hack (mkPrefixId pre)
    (by simpa [mkPrefixId] using hlt) (by omega)] at hout
  rw [hin] at hout
  cases hout
  exact ⟨rfl, rfl, rfl, rfl⟩

theorem c2_amended_witness :
    pkgC2outer.source_workspace = pkgC2inner.source_workspace ∧
    pkgC2outer.destination_workspace = pkgC2inner.destination_workspace ∧
    pkgC2outer.start_dir = pkgC2inner.start_dir ++ ["b"] ∧
    pkgC2outer.build_in_destination = false :=
  c2_amended envC2 ["ws"] ["ws"] false { path := ["a", "b"], version := none }
    ["a"] ["b"] pkgC2inner pkgC2outer
    (by decide) (by decide) (by decide) (by decide)

/-- C3: when resolution reaches the fetch fallback (no candidate directory,
no usable prefix), the first successful fetch adopts directory `d`; if `d`
carries the identifier path or its versioned form as its tail, the source
workspace becomes `d` minus one segment per identifier-path segment minus
one further ("src") segment, the destination workspace that minus two
further segments, and `build_in_destination` is true.  The identifier path
length is arbitrary, covering depths 1 through 5. -/
theorem c3_recompute (env : Env) (source dest : FsPath) (id : CrateId)
    (d : FsPath)
    (hc : candidateHit env source false id = none)
    (hp : prefixHit env source id = none)
    (hf : fetchFirst env (outputNames env source false id) id = some d)
    (hanc : (isAncestorOf d id.path ||
      isAncestorOf d (versionize id.path id.version)) = true)
    (hdir : env.isDir d = true) :
    PkgSrc.new env source dest false id =
      .ok { source_workspace := popN (id.path.length + 1) d,
            build_in_destination := true,
            destination_workspace := popN 2 (popN (id.path.length + 1) d),
            start_dir := d, id := id,
            libs := [], mains := [], tests := [], benchs := [] } := by
  simp only [PkgSrc.new, PkgSrc.newAux, hc, hp, hf, hanc, if_true]
  simp [finishPkg, hdir]

/-- Environment of the C3 witness: the fetch of `g/w` finds an existing
checkout at the staging candidate `ws/build/t/src/g/w-0.0`, whose tail is
the versioned identifier path. -/
def envC3 : Env :=
  { envC1 with
    isDir := fun p => p == ["ws", "build", "t", "src", "g", "w-0.0"]
    hasCrateFile := fun _ => false
    safeGitClone := fun _ _ loc =>
      if loc == ["ws", "build", "t", "src", "g", "w-0.0"] then .CheckedOutSources
      else .DirToUse ["ct"] }

theorem c3_recompute_witness :
    PkgSrc.new envC3 ["ws"] ["ws"] false { path := ["g", "w"], version := none } =
      .ok { source_workspace := ["ws", "build", "t"],
            build_in_destination := true,
            destination_workspace := ["ws"],
            start_dir := ["ws", "build", "t", "src", "g", "w-0.0"],
            id := { path := ["g", "w"], version := none },
            libs := [], mains := [], tests := [], benchs := [] } :=
  (c3_recompute envC3 ["ws"] ["ws"]
      { path := ["g", "w"], version := none }
      ["ws", "build", "t", "src", "g", "w-0.0"]
      (by decide) (by decide) (by decide) (by decide) (by decide)).trans
    (by decide)

/-!
## Claims C4, C5: the PathDecomposer sequence
-/

/-- C4: for an identifier path of N ≥ 2 segments the decomposer yields
exactly N−1 pairs; every yielded pair reconstructs the original path, both
as segments (no reordering) and as the slash-joined rendering
`prefix ++ "/" ++ suffix`; for N ≤ 1 the sequence is empty. -/
theorem c4_decomposition (p : FsPath) :
    (2 ≤ p.length → (prefixesList p).length = p.length - 1) ∧
    (∀ pre suf : FsPath, (pre, suf) ∈ prefixesList p →
      pre ++ suf = p ∧
      joinSlash pre ++ "/" ++ joinSlash suf = joinSlash p) ∧
    (p.length ≤ 1 → prefixesList p = []) := by
  refine ⟨fun _ => prefixesList_length p, ?_, ?_⟩
  · intro pre suf h
    obtain ⟨happ, hpre, hsuf, _⟩ := mem_prefixesList h
    exact ⟨happ, by rw [← happ, joinSlash_append hpre hsuf]⟩
  · intro h
    rw [prefixesList_eq]
    have h0 : p.length - 1 = 0 := by omega
    rw [h0]
    rfl

theorem c4_decomposition_witness :
    (prefixesList ["a", "b", "c"]).length = 3 - 1 ∧
    (["a"] ++ ["b", "c"] = ["a", "b", "c"] ∧
      joinSlash ["a"] ++ "/" ++ joinSlash ["b", "c"] = joinSlash ["a", "b", "c"]) ∧
    prefixesList ["x"] = [] :=
  ⟨(c4_decomposition ["a", "b", "c"]).1 (by decide),
   (c4_decomposition ["a", "b", "c"]).2.1 ["a"] ["b", "c"] (by decide),
   (c4_decomposition ["x"]).2.2 (by decide)⟩

/-- C5 counterexample: on the two-segment path `a/b` the first (and only)
yielded pair is `(a, b)`, not the full path `a/b` with an empty suffix as
the claim states — the iterator moves a segment to the suffix before its
first yield. -/
theorem c5_counterexample :
    (prefixesList ["a", "b"]).head? = some (["a"], ["b"]) ∧
    (prefixesList ["a", "b"]).head? ≠ some (["a", "b"], ([] : FsPath)) := by
  decide

theorem take_pred_of_take {α : Type} (p : List α) (j : Nat) (hj : j ≤ p.length) :
    (p.take j).dropLast = p.take (j - 1) := by
  rw [List.dropLast_eq_take, List.take_take, List.length_take]
  congr 1
  omega

theorem take_getLastD {α : Type} [Inhabited α] (p : List α) (j : Nat) (d : α)
    (h1 : 1 ≤ j) (hj : j ≤ p.length) :
    (p.take j).getLastD d = p.get ⟨j - 1, by omega⟩ := by
  have hne : p.take j ≠ [] := by
    intro hc
    have := congrArg List.length hc
    simp only [List.length_take, List.length_nil] at this
    omega
  rw [List.getLastD_eq_getLast?, List.getLast?_eq_getLast _ hne, Option.getD_some,
      List.getLast_eq_getElem, List.get_eq_getElem, List.getElem_take]
  congr 1
  simp only [List.length_take]
  omega

/-- Indexed form of the decomposer sequence: the `i`-th pair keeps the
first `N−1−i` segments as prefix and moves the rest to the suffix. -/
theorem prefixesList_get (p : FsPath) (i : Nat)
    (hi : i < (prefixesList p).length) :
    (prefixesList p).get ⟨i, hi⟩ =
      (p.take (p.length - 1 - i), p.drop (p.length - 1 - i)) := by
  have hi' : i < p.length - 1 := by
    rw [← prefixesList_length p]
    exact hi
  rw [List.get_eq_getElem, List.getElem_of_eq (prefixesList_eq p) hi,
      List.getElem_map, List.getElem_range]

/-- C5 (amended): for a path of N ≥ 2 segments, the first yielded pair is
the path minus its last segment, paired with that last segment as the
suffix (not the full path with an empty suffix); each subsequent step moves
exactly one more segment from the end of the prefix to the front of the
suffix; the final pair's prefix has exactly one segment, at which point the
sequence ends — N−1 pairs in total. -/
theorem c5_amended (p : FsPath) (h2 : 2 ≤ p.length) :
    (prefixesList p).head? = some (p.dropLast, [p.getLastD ""]) ∧
    (∀ (i : Nat) (hi : i + 1 < (prefixesList p).length),
      (prefixesList p).get ⟨i + 1, hi⟩ =
        (((prefixesList p).get ⟨i, by omega⟩).1.dropLast,
         ((prefixesList p).get ⟨i, by omega⟩).1.getLastD "" ::
           ((prefixesList p).get ⟨i, by omega⟩).2)) ∧
    (∀ pr : FsPath × FsPath, (prefixesList p).getLast? = some pr →
      pr.1.length = 1) ∧
    (prefixesList p).length = p.length - 1 := by
  have hne : p ≠ [] := by
    intro hc
    subst hc
    simp at h2
  have hlen := prefixesList_length p
  refine ⟨?_, ?_, ?_, hlen⟩
  · rw [prefixesList_eq]
    have hL : p.length - 1 = (p.length - 2) + 1 := by omega
    rw [hL, List.range_succ_eq_map, List.map_cons, List.head?_cons]
    rw [Nat.sub_zero, ← hL, ← List.dropLast_eq_take,
        drop_length_sub_one p "" hne]
  · intro i hi
    have hi0 : i < (prefixesList p).length := by omega
    rw [prefixesList_get p (i + 1) hi, prefixesList_get p i hi0]
    have e1 : p.length - 1 - (i + 1) = (p.length - 1 - i) - 1 := by omega
    have hj1 : 1 ≤ p.length - 1 - i := by omega
    have hj2 : p.length - 1 - i ≤ p.length := by omega
    refine Prod.ext ?_ ?_
    · rw [take_pred_of_take p _ hj2, e1]
    · rw [take_getLastD p _ "" hj1 hj2, List.get_eq_getElem, e1,
        List.drop_eq_getElem_cons (l := p) (n := p.length - 1 - i - 1)
          (by omega)]
      refine congrArg₂ List.cons rfl ?_
      congr 1
      omega
  · intro pr hpr
    rw [prefixesList_eq] at hpr
    have hL : p.length - 1 = (p.length - 2) + 1 := by omega
    rw [hL, List.range_succ, List.map_append, List.map_cons, List.map_nil,
        List.getLast?_concat, Option.some.injEq] at hpr
    rw [← hpr]
    have he : p.length - 1 - (p.length - 2) = 1 := by omega
    simp only [he, List.length_take]
    omega

theorem c5_amended_witness :
    (prefixesList ["a", "b", "c"]).head? = some (["a", "b"], ["c"]) ∧
    (prefixesList ["a", "b", "c"]).get ⟨1, by decide⟩ =
      (((prefixesList ["a", "b", "c"]).get ⟨0, by decide⟩).1.dropLast,
       ((prefixesList ["a", "b", "c"]).get ⟨0, by decide⟩).1.getLastD "" ::
         ((prefixesList ["a", "b", "c"]).get ⟨0, by decide⟩).2) ∧
    (prefixesList ["a", "b", "c"]).length = 3 - 1 :=
  ⟨(c5_amended ["a", "b", "c"] (by decide)).1,
   (c5_amended ["a", "b", "c"] (by decide)).2.1 0 (by decide),
   (c5_amended ["a", "b", "c"] (by decide)).2.2.2⟩

/-!
## Claims C6, C7: unit discovery
-/

/-- A walked path counts for unit category `nm` when its filename passes the
caller's filter and equals `nm` exactly. -/
def isUnitFile (filter : String → Bool) (nm : String) (p : FsPath) : Bool :=
  match p.getLast? with
  | some f => filter f && f == nm
  | none => false

theorem classifyStep_libs (filter : String → Bool) (pfx : Nat) (ps : PkgSrc)
    (pth : FsPath) :
    (classifyStep filter pfx ps pth).libs =
      ps.libs ++ (if isUnitFile filter "lib.rs" pth
        then [PkgSrc.pushCrate pfx pth] else []) := by
  unfold classifyStep isUnitFile
  cases pth.getLast? with
  | none => simp
  | some f =>
    by_cases hfil : filter f <;> simp only [hfil] <;> split_ifs <;> simp_all

theorem classifyStep_mains (filter : String → Bool) (pfx : Nat) (ps : PkgSrc)
    (pth : FsPath) :
    (classifyStep filter pfx ps pth).mains =
      ps.mains ++ (if isUnitFile filter "main.rs" pth
        then [PkgSrc.pushCrate pfx pth] else []) := by
  unfold classifyStep isUnitFile
  cases pth.getLast? with
  | none => simp
  | some f =>
    by_cases hfil : filter f <;> simp only [hfil] <;> split_ifs <;> simp_all

theorem classifyStep_tests (filter : String → Bool) (pfx : Nat) (ps : PkgSrc)
    (pth : FsPath) :
    (classifyStep filter pfx ps pth).tests =
      ps.tests ++ (if isUnitFile filter "test.rs" pth
        then [PkgSrc.pushCrate pfx pth] else []) := by
  unfold classifyStep isUnitFile
  cases pth.getLast? with
  | none => simp
  | some f =>
    by_cases hfil : filter f <;> simp only [hfil] <;> split_ifs <;> simp_all

theorem classifyStep_benchs (filter : String → Bool) (pfx : Nat) (ps : PkgSrc)
    (pth : FsPath) :
    (classifyStep filter pfx ps pth).benchs =
      ps.benchs ++ (if isUnitFile filter "bench.rs" pth
        then [PkgSrc.pushCrate pfx pth] else []) := by
  unfold classifyStep isUnitFile
  cases pth.getLast? with
  | none => simp
  | some f =>
    by_cases hfil : filter f <;> simp only [hfil] <;> split_ifs <;> simp_all

theorem classifyStep_id (filter : String → Bool) (pfx : Nat) (ps : PkgSrc)
    (pth : FsPath) :
    (classifyStep filter pfx ps pth).id = ps.id := by
  unfold classifyStep
  cases pth.getLast? with
  | none => rfl
  | some f => by_cases hfil : filter f <;> simp only [hfil] <;> split_ifs <;> rfl

theorem classifyStep_start_dir (filter : String → Bool) (pfx : Nat)
    (ps : PkgSrc) (pth : FsPath) :
    (classifyStep filter pfx ps pth).start_dir = ps.start_dir := by
  unfold classifyStep
  cases pth.getLast? with
  | none => rfl
  | some f => by_cases hfil : filter f <;> simp only [hfil] <;> split_ifs <;> rfl

theorem foldClassify_libs (filter : String → Bool) (pfx : Nat) :
    ∀ (l : List FsPath) (ps : PkgSrc),
      (l.foldl (classifyStep filter pfx) ps).libs =
        ps.libs ++ (l.filter (isUnitFile filter "lib.rs")).map (PkgSrc.pushCrate pfx)
  | [], ps => by simp
  | pth :: l, ps => by
    rw [List.foldl_cons, foldClassify_libs filter pfx l _, classifyStep_libs,
        List.filter_cons]
    split <;> simp

theorem foldClassify_mains (filter : String → Bool) (pfx : Nat) :
    ∀ (l : List FsPath) (ps : PkgSrc),
      (l.foldl (classifyStep filter pfx) ps).mains =
        ps.mains ++ (l.filter (isUnitFile filter "main.rs")).map (PkgSrc.pushCrate pfx)
  | [], ps => by simp
  | pth :: l, ps => by
    rw [List.foldl_cons, foldClassify_mains filter pfx l _, classifyStep_mains,
        List.filter_cons]
    split <;> simp

theorem foldClassify_tests (filter : String → Bool) (pfx : Nat) :
    ∀ (l : List FsPath) (ps : PkgSrc),
      (l.foldl (classifyStep filter pfx) ps).tests =
        ps.tests ++ (l.filter (isUnitFile filter "test.rs")).map (PkgSrc.pushCrate pfx)
  | [], ps => by simp
  | pth :: l, ps => by
    rw [List.foldl_cons, foldClassify_tests filter pfx l _, classifyStep_tests,
        List.filter_cons]
    split <;> simp

theorem foldClassify_benchs (filter : String → Bool) (pfx : Nat) :
    ∀ (l : List FsPath) (ps : PkgSrc),
      (l.foldl (classifyStep filter pfx) ps).benchs =
        ps.benchs ++ (l.filter (isUnitFile filter "bench.rs")).map (PkgSrc.pushCrate pfx)
  | [], ps => by simp
  | pth :: l, ps => by
    rw [List.foldl_cons, foldClassify_benchs filter pfx l _, classifyStep_benchs,
        List.filter_cons]
    split <;> simp

theorem foldClassify_id (filter : String → Bool) (pfx : Nat) :
    ∀ (l : List FsPath) (ps : PkgSrc),
      (l.foldl (classifyStep filter pfx) ps).id = ps.id
  | [], ps => rfl
  | pth :: l, ps => by
    rw [List.foldl_cons, foldClassify_id filter pfx l _, classifyStep_id]

/-- C6: discovery appends to each of the four unit lists exactly the walked
files whose filename passes the filter and equals that list's conventional
name — `lib.rs` to the libraries, `main.rs` to the executables, `test.rs`
to the tests, `bench.rs` to the benchmarks, in walk order and with the
`start_dir`-relative path; a file with any other filename lands in no
list.  The four defining filename predicates are mutually exclusive, so the
categories are disjoint per the table. -/
theorem c6_classification (env : Env) (ps : PkgSrc) (filter : String → Bool) :
    (discoverCrates env ps filter).libs =
      ps.libs ++ ((env.walkDir ps.start_dir).filter
        (isUnitFile filter "lib.rs")).map (PkgSrc.pushCrate ps.start_dir.length) ∧
    (discoverCrates env ps filter).mains =
      ps.mains ++ ((env.walkDir ps.start_dir).filter
        (isUnitFile filter "main.rs")).map (PkgSrc.pushCrate ps.start_dir.length) ∧
    (discoverCrates env ps filter).tests =
      ps.tests ++ ((env.walkDir ps.start_dir).filter
        (isUnitFile filter "test.rs")).map (PkgSrc.pushCrate ps.start_dir.length) ∧
    (discoverCrates env ps filter).benchs =
      ps.benchs ++ ((env.walkDir ps.start_dir).filter
        (isUnitFile filter "bench.rs")).map (PkgSrc.pushCrate ps.start_dir.length) :=
  ⟨foldClassify_libs filter ps.start_dir.length (env.walkDir ps.start_dir) ps,
   foldClassify_mains filter ps.start_dir.length (env.walkDir ps.start_dir) ps,
   foldClassify_tests filter ps.start_dir.length (env.walkDir ps.start_dir) ps,
   foldClassify_benchs filter ps.start_dir.length (env.walkDir ps.start_dir) ps⟩

/-- Environment of the C7 concrete instance: the walk of the start
directory finds only `readme.md` and `notes.txt`. -/
def envC7 : Env :=
  { envC1 with
    walkDir := fun d => [d ++ ["readme.md"], d ++ ["notes.txt"]] }

/-- Package state entering discovery in the C7 concrete instance. -/
def psC7 : PkgSrc :=
  { source_workspace := ["ws"], build_in_destination := false,
    destination_workspace := ["ws"], start_dir := ["ws", "src", "p"],
    id := { path := ["p"], version := none },
    libs := [], mains := [], tests := [], benchs := [] }

/-- C7: discovery raises the recoverable no-buildable-units condition,
carrying the package identifier, exactly when all four unit lists are empty
after the full walk (the naming-convention hint being an elided logging
effect); in particular a start directory holding only `readme.md` and
`notes.txt` triggers it. -/
theorem c7_no_units :
    (∀ (env : Env) (ps : PkgSrc) (filter : String → Bool),
      PkgSrc.findCratesWithFilter env ps filter = .error ps.id ↔
        ((discoverCrates env ps filter).libs = [] ∧
         (discoverCrates env ps filter).mains = [] ∧
         (discoverCrates env ps filter).tests = [] ∧
         (discoverCrates env ps filter).benchs = [])) ∧
    PkgSrc.findCratesWithFilter envC7 psC7 (fun _ => true) = .error psC7.id := by
  constructor
  · intro env ps filter
    unfold PkgSrc.findCratesWithFilter
    have hid : (discoverCrates env ps filter).id = ps.id :=
      foldClassify_id filter ps.start_dir.length (env.walkDir ps.start_dir) ps
    dsimp only
    split
    · rename_i hcond
      simp only [Bool.and_eq_true, List.isEmpty_iff] at hcond
      simp [hid, hcond.1.1.1, hcond.1.1.2, hcond.1.2, hcond.2]
    · rename_i hcond
      simp only [Bool.and_eq_true, List.isEmpty_iff] at hcond
      constructor
      · intro hc
        exact Except.noConfusion hc
      · intro hall
        exact absurd ⟨⟨⟨hall.1, hall.2.1⟩, hall.2.2.1⟩, hall.2.2.2⟩ hcond
  · decide

/-!
## Claim C8: fetch refuses single-segment identifier paths
-/

/-- C8: when no valid local checkout exists (the version-control client
answers with a staging directory to clone into) and the identifier path has
fewer than two segments, `fetch_git` returns nothing, without attempting a
clone and without raising an error. -/
theorem c8_fetch_short_path (env : Env) (loc : FsPath) (crateid : CrateId)
    (ct : FsPath)
    (hclone : env.safeGitClone crateid.path crateid.version loc = .DirToUse ct)
    (hshort : crateid.path.length < 2) :
    PkgSrc.fetchGit env loc crateid =
      { result := none, cloneAttempted := false } := by
  unfold PkgSrc.fetchGit
  rw [hclone]
  simp [if_pos hshort]

/-- Environment of the C8 witness. -/
def envC8 : Env :=
  { envC1 with
    safeGitClone := fun _ _ _ => .DirToUse ["stage"]
    gitCloneOk := fun _ _ _ => true
    mkdirOk := fun _ => true
    renameOk := fun _ _ => true }

theorem c8_fetch_short_path_witness :
    envC8.safeGitClone ["solo"] none ["cache", "solo"] = .DirToUse ["stage"] ∧
    PkgSrc.fetchGit envC8 ["cache", "solo"] { path := ["solo"], version := none } =
      { result := none, cloneAttempted := false } :=
  ⟨by decide,
   c8_fetch_short_path envC8 ["cache", "solo"]
     { path := ["solo"], version := none } ["stage"] (by decide) (by decide)⟩

/-!
## Claim C9: build returns an empty dependency map
-/

theorem buildCrateStep_cases (env : Env) (ps : PkgSrc) (cfgs : List String)
    (what : OutputType) (inputs : List (String × FsPath))
    (acc : Option DepMap) (c : Crate) :
    buildCrateStep env ps cfgs what inputs acc c = acc ∨
    buildCrateStep env ps cfgs what inputs acc c = none := by
  cases acc with
  | none => exact Or.inr rfl
  | some deps =>
    unfold buildCrateStep
    by_cases hbad : badKind inputs = true
    · exact Or.inr (by simp [hbad])
    · exact Or.inl (by simp [hbad])

theorem foldBuildStep (env : Env) (ps : PkgSrc) (cfgs : List String)
    (what : OutputType) (inputs : List (String × FsPath)) :
    ∀ (l : List Crate) (acc : Option DepMap),
      l.foldl (buildCrateStep env ps cfgs what inputs) acc = acc ∨
      l.foldl (buildCrateStep env ps cfgs what inputs) acc = none
  | [], acc => Or.inl rfl
  | c :: l, acc => by
    rw [List.foldl_cons]
    rcases buildCrateStep_cases env ps cfgs what inputs acc c with h | h
    · rw [h]
      exact foldBuildStep env ps cfgs what inputs l acc
    · rw [h]
      rcases foldBuildStep env ps cfgs what inputs l none with h2 | h2 <;>
        exact Or.inr h2

theorem buildCrates_result (env : Env) (ps : PkgSrc) (crates : List Crate)
    (cfgs : List String) (what : OutputType)
    (inputs : List (String × FsPath)) (deps m : DepMap)
    (hm : PkgSrc.buildCrates env ps deps crates cfgs what inputs = some m) :
    m = deps := by
  unfold PkgSrc.buildCrates at hm
  rcases foldBuildStep env ps cfgs what inputs crates (some deps) with h | h
  · rw [h] at hm
    exact (Option.some.injEq _ _ ▸ hm).symm
  · rw [h] at hm
    exact Option.noConfusion hm

/-- C9: whatever dependency map `build` returns is the empty map — the map
is created fresh and `build_crates` hands the compiler only clones of
clones of it, so nothing (not even compiler-discovered dependencies) is
ever accumulated into the returned value. -/
theorem c9_build_empty (env : Env) (ps : PkgSrc) (cfgs : List String)
    (inputs : List (String × FsPath)) (m : DepMap)
    (h : PkgSrc.build env ps cfgs inputs = some m) :
    m = [] := by
  unfold PkgSrc.build at h
  dsimp only at h
  cases h1 : PkgSrc.buildCrates env ps [] ps.libs cfgs .Lib inputs with
  | none => simp [h1] at h
  | some d1 =>
    have e1 := buildCrates_result env ps ps.libs cfgs .Lib inputs [] d1 h1
    subst e1
    simp only [h1] at h
    cases h2 : PkgSrc.buildCrates env ps [] ps.mains cfgs .Main inputs with
    | none => simp [h2] at h
    | some d2 =>
      have e2 := buildCrates_result env ps ps.mains cfgs .Main inputs [] d2 h2
      subst e2
      simp only [h2] at h
      cases h3 : PkgSrc.buildCrates env ps [] ps.tests cfgs .Test inputs with
      | none => simp [h3] at h
      | some d3 =>
        have e3 := buildCrates_result env ps ps.tests cfgs .Test inputs [] d3 h3
        subst e3
        simp only [h3] at h
        exact buildCrates_result env ps ps.benchs cfgs .Bench inputs [] m h

/-- Environment of the C9 witness: the external compiler reports a
discovered dependency by extending its (cloned) map — which `build` still
discards. -/
def envC9 : Env :=
  { envC1 with
    compileCrate := fun _ _ _ dm _ _ _ =>
      (some ["out", "lib.so"], ("widget", [("binary", "dep")]) :: dm) }

/-- Package with one library unit for the C9 witness. -/
def psC9 : PkgSrc :=
  { psC7 with libs := [Crate.new ["lib.rs"]] }

theorem c9_build_empty_witness :
    PkgSrc.build envC9 psC9 [] [("file", ["d", "x"])] = some [] ∧
    ([] : DepMap) = [] :=
  ⟨by decide,
   c9_build_empty envC9 psC9 [] [("file", ["d", "x"])] [] (by decide)⟩

/-!
## Claim C10: the concat expander
-/

/-- The claim's contribution table, per (expanded) argument: string and
float literals contribute their source text, a char its character, int/uint
literals their decimal rendering, bools "true"/"false", `()` the empty
string; a binary literal or a non-literal contributes nothing. -/
def contributionTable : MExpr → String
  | .ExprLit l =>
    match l with
    | .LitStr s | .LitFloat s | .LitFloatUnsuffixed s => s
    | .LitChar c => String.singleton c
    | .LitInt i | .LitIntUnsuffixed i => toString i
    | .LitUint u => toString u
    | .LitNil => ""
    | .LitBool b => if b then "true" else "false"
    | .LitBinary => ""
  | .ExprOther => ""

/-- The error messages reported for one (expanded) argument. -/
def errorTable : MExpr → List String
  | .ExprLit .LitBinary => ["cannot concatenate a binary literal"]
  | .ExprLit _ => []
  | .ExprOther => ["expected a literal"]

theorem push_eq_append_singleton (s : String) (c : Char) :
    s.push c = s ++ String.singleton c := by
  apply String.ext
  simp [String.singleton]

theorem strJoin_cons (s : String) (ss : List String) :
    String.join (s :: ss) = s ++ String.join ss := by
  apply String.ext
  simp [String.join_eq]

theorem concatStep_eq {τ : Type} (env : ConcatEnv τ)
    (st : String × List String) (e : MExpr) :
    concatStep env st e =
      (st.1 ++ contributionTable (env.expandExpr e),
       st.2 ++ errorTable (env.expandExpr e)) := by
  unfold concatStep contributionTable errorTable
  cases env.expandExpr e with
  | ExprOther => simp
  | ExprLit l =>
    cases l <;> simp [push_eq_append_singleton]

theorem concatFold {τ : Type} (env : ConcatEnv τ) :
    ∀ (es : List MExpr) (st : String × List String),
      es.foldl (concatStep env) st =
        (st.1 ++ String.join (es.map (fun e => contributionTable (env.expandExpr e))),
         st.2 ++ (es.map (fun e => errorTable (env.expandExpr e))).flatten)
  | [], st => by
    apply Prod.ext <;> simp [String.join]
  | e :: es, st => by
    rw [List.foldl_cons, concatFold env es _, concatStep_eq, List.map_cons,
        List.map_cons, strJoin_cons, List.flatten_cons]
    apply Prod.ext
    · simp [String.append_assoc]
    · simp

/-- C10: whenever argument extraction succeeds, the expander returns a
string-literal expression whose text is the left-to-right concatenation of
every argument's contribution per the table — later arguments are still
processed after an erroneous one, which only appends its report to the
error channel. -/
theorem c10_concat {τ : Type} (env : ConcatEnv τ) (tts : List τ)
    (es : List MExpr) (h : env.getExprsFromTts tts = some es) :
    expandSyntaxExt env tts =
      (.MRExpr (.ExprLit (.LitStr
        (String.join (es.map (fun e => contributionTable (env.expandExpr e)))))),
       (es.map (fun e => errorTable (env.expandExpr e))).flatten) := by
  unfold expandSyntaxExt
  rw [h]
  dsimp only
  rw [concatFold env es ("", [])]
  simp [String.empty_append]

/-- Collaborators of the C10 witness: extraction always yields a fixed
mixed argument list (with a binary literal and a non-literal in the middle)
and per-argument expansion is the identity. -/
def envC10 : ConcatEnv Unit :=
  { getExprsFromTts := fun _ =>
      some [.ExprLit (.LitStr "a"), .ExprLit .LitBinary, .ExprOther,
            .ExprLit (.LitInt (-3)), .ExprLit (.LitBool true),
            .ExprLit (.LitChar 'x'), .ExprLit .LitNil,
            .ExprLit (.LitUint 7)]
    expandExpr := fun e => e }

theorem c10_concat_witness :
    expandSyntaxExt envC10 [] =
      (.MRExpr (.ExprLit (.LitStr "a-3truex7")),
       ["cannot concatenate a binary literal", "expected a literal"]) :=
  (c10_concat envC10 []
    [.ExprLit (.LitStr "a"), .ExprLit .LitBinary, .ExprOther,
     .ExprLit (.LitInt (-3)), .ExprLit (.LitBool true),
     .ExprLit (.LitChar 'x'), .ExprLit .LitNil,
     .ExprLit (.LitUint 7)] rfl).trans (by decide)
